import Mathlib

/-!
Shallow embedding of `src/run_sextractor.py`: a batch driver that discovers
FITS images in the working directory, infers a companion weight/RMS image for
each by filename convention (`find_weight_image`), and invokes an external
source-extraction binary per image.

The filesystem is modelled as the list of paths that exist; `os.path.exists`
is list membership. Python string operations used by the script (`in`,
`str.replace`, `startswith`, `endswith`, `sorted`) are modelled by structural
recursions on character lists with Python's semantics, so that every
definition evaluates by `decide`.
-/

namespace RunSextractor

/-- A filesystem state: the list of paths that currently exist.
`os.path.exists p` is membership of `p` in this list. -/
abbrev FS := List String

/-- Model of `os.path.exists` (a pure existence query against the state). -/
def pathExists (fs : FS) (p : String) : Bool := fs.contains p

/-- `CONFIG_FILE = "default.sex"` (line 14). -/
def CONFIG_FILE : String := "default.sex"

/-- `PARAM_FILE = "default.param"` (line 15). -/
def PARAM_FILE : String := "default.param"

/-- `IMAGE_EXTENSIONS` glob patterns (line 16). -/
def IMAGE_EXTENSIONS : List String := ["*.fits", "*.fit", "*.FITS", "*.FIT"]

/-- `WEIGHT_SUFFIXES["MAP_RMS"]` (line 22). -/
def MAP_RMS_SUFFIXES : List String := ["_stddev", "_stdev", "_rms", "_unc", "_uncert", "_sigma"]

/-- `WEIGHT_SUFFIXES["MAP_WEIGHT"]` (line 23). -/
def MAP_WEIGHT_SUFFIXES : List String := ["_weight", "_wht", "_wt", "_ivar"]

/-- The four extension variants tried by `find_weight_image`
(lines 55, 62, 77, 87). -/
def file_exts : List String := [".fits", ".fit", ".FITS", ".FIT"]

/-- `uncertainty_names` (line 68). -/
def uncertainty_names : List String := ["unc", "stddev", "stdev", "rms", "uncert", "sigma"]

/-- `weight_names` (line 69). -/
def weight_names : List String := ["weight", "wht", "wt", "ivar"]

/-- `components_to_replace` (line 70). -/
def components_to_replace : List String := ["-int", "-sci"]

/-- Python `pre.isPrefix check`: `s.startswith(pre)`. -/
def strStartsWith (s pre : String) : Bool := pre.data.isPrefixOf s.data

/-- Python `s.endswith(post)`. -/
def strEndsWith (s post : String) : Bool := post.data.reverse.isPrefixOf s.data.reverse

/-- Python substring test `pat in s`, on character lists: true iff `pat`
occurs contiguously in `s` (an empty `pat` occurs in every `s`). -/
def containsSub (pat : List Char) : List Char → Bool
  | [] => pat.isEmpty
  | c :: rest => pat.isPrefixOf (c :: rest) || containsSub pat rest

/-- Python substring test `pat in s` for strings. -/
def strContains (s pat : String) : Bool := containsSub pat.data s.data

/-- Fuel-indexed worker for `replaceAll`; the fuel is always at least the
length of the remaining input, so the `0, s` fallback is never reached. -/
def replaceAllAux (pat repl : List Char) : Nat → List Char → List Char
  | _, [] => []
  | 0, s => s
  | fuel + 1, c :: rest =>
    if pat ≠ [] ∧ pat.isPrefixOf (c :: rest) then
      repl ++ replaceAllAux pat repl fuel (rest.drop (pat.length - 1))
    else
      c :: replaceAllAux pat repl fuel rest

/-- Python `s.replace(pat, repl)`: replace every non-overlapping occurrence,
scanning left to right. (Python additionally inserts `repl` around every
character when `pat` is empty; the patterns used by the program, `-int` and
`-sci`, are nonempty, and this model leaves `s` unchanged for an empty
pattern.) -/
def replaceAll (pat repl s : List Char) : List Char := replaceAllAux pat repl s.length s

/-- Python `s.replace(pat, repl)` for strings. -/
def strReplace (s pat repl : String) : String := String.mk (replaceAll pat.data repl.data s.data)

/-- `os.path.join(d, f)` (POSIX, two arguments), as used on lines 56, 63, 78,
88, 102, 103 and in `find_images`. -/
def joinPath (d f : String) : String :=
  if strStartsWith f "/" then f
  else if d = "" || strEndsWith d "/" then d ++ f
  else d ++ "/" ++ f

/-- The suffix-pattern candidates (pattern 1) for a given suffix list, in the
order the nested loops of lines 54–58 / 61–65 probe them: suffix-major,
extension-minor. -/
def suffixCandidates (image_dir stem : String) (suffixes : List String) : List String :=
  suffixes.flatMap fun suffix =>
    file_exts.map fun fext => joinPath image_dir (stem ++ suffix ++ fext)

/-- The substring-replacement candidates (pattern 2) for a given name list,
in the order the nested loops of lines 73–80 / 83–90 probe them: component,
then name, then extension; a component contributes candidates only when it
occurs in the stem. -/
def replacementCandidates (image_dir stem : String) (names : List String) : List String :=
  components_to_replace.flatMap fun component =>
    if strContains stem component then
      names.flatMap fun nm =>
        file_exts.map fun fext =>
          joinPath image_dir (strReplace stem component ("-" ++ nm) ++ fext)
    else []

/-- A nested probe loop with early return: the first candidate whose
existence check succeeds. -/
def firstExisting (fs : FS) (cands : List String) : Option String :=
  cands.find? fun c => pathExists fs c

/-- `find_weight_image` (lines 43–92). The Python function first computes
`image_dir = os.path.dirname(image_path) or "."` and
`stem = Path(image_path).stem` (lines 50–51); this embedding takes the
resulting directory and stem as inputs. The Python return value is the pair
`(None, None)` or `("MAP_RMS"/"MAP_WEIGHT", candidate)`, modelled as a pair
of options. -/
def find_weight_image (fs : FS) (image_dir stem : String) : Option String × Option String :=
  match firstExisting fs (suffixCandidates image_dir stem MAP_RMS_SUFFIXES) with
  | some c => (some "MAP_RMS", some c)
  | none =>
    match firstExisting fs (suffixCandidates image_dir stem MAP_WEIGHT_SUFFIXES) with
    | some c => (some "MAP_WEIGHT", some c)
    | none =>
      match firstExisting fs (replacementCandidates image_dir stem uncertainty_names) with
      | some c => (some "MAP_RMS", some c)
      | none =>
        match firstExisting fs (replacementCandidates image_dir stem weight_names) with
        | some c => (some "MAP_WEIGHT", some c)
        | none => (none, none)

/-- Python string comparison `a < b`: lexicographic by code point. -/
def charListLt : List Char → List Char → Bool
  | [], [] => false
  | [], _ :: _ => true
  | _ :: _, [] => false
  | a :: as, b :: bs => if a < b then true else if b < a then false else charListLt as bs

/-- Insert into an ascending list (helper for `sortStrings`). -/
def insertSorted (x : String) : List String → List String
  | [] => [x]
  | y :: ys => if charListLt y.data x.data then y :: insertSorted x ys else x :: y :: ys

/-- Python `sorted` on a list of strings (ascending lexicographic order). -/
def sortStrings (l : List String) : List String := l.foldr insertSorted []

/-- glob matching for the star-prefixed patterns of `IMAGE_EXTENSIONS`:
`fnmatch` of `"*" + suffix` is an `endswith` test, and `glob` hides entries
whose name starts with a dot. -/
def globMatch (pattern name : String) : Bool :=
  strEndsWith name (String.mk (pattern.data.drop 1)) && !(strStartsWith name ".")

/-- `find_images` (lines 36–41) at its call site `find_images()` in `main`
(directory `"."`): for each pattern in order, the matching entries of the
working directory as `./name` paths, then sorted. `cwd` is the list of entry
names in the working directory. -/
def find_images (cwd : List String) : List String :=
  sortStrings (IMAGE_EXTENSIONS.flatMap fun pattern =>
    (cwd.filter (globMatch pattern)).map fun n => joinPath "." n)

/-- The environment `main` runs against: whether the `sex` binary is
available (lines 26–34), the entry names of the working directory, and the
outcome of the external invocation for each image path (line 124: `True` iff
the subprocess exits 0). -/
structure Env where
  sexAvailable : Bool
  cwd : List String
  runSuccess : String → Bool

/-- `run_sextractor` (lines 95–130): directory creation, command
construction and printing do not affect the returned Boolean; the `try`
around the subprocess call returns `True` on exit code 0 and `False`
otherwise, which the environment supplies per image path. -/
def run_sextractor (env : Env) (image_path : String) : Bool := env.runSuccess image_path

/-- The processing loop of lines 167–171: success counter and the images
attempted, in order. -/
def processImages (env : Env) (images : List String) : Nat × List String :=
  images.foldl
    (fun acc img => ((if run_sextractor env img then acc.1 + 1 else acc.1), acc.2 ++ [img]))
    (0, [])

/-- `os.path.exists` as a state-passing operation: the Boolean answer together
with the filesystem state after the query (an existence query reads the state
and leaves it unchanged). -/
def osPathExistsOp (fs : FS) (p : String) : Bool × FS := (fs.contains p, fs)

/-- A probe loop with the filesystem state threaded through every
`os.path.exists` call. -/
def probe (fs : FS) : List String → Option String × FS
  | [] => (none, fs)
  | c :: rest =>
    match osPathExistsOp fs c with
    | (true, fs1) => (some c, fs1)
    | (false, fs1) => probe fs1 rest

/-- `find_weight_image` with the filesystem state threaded through every
`os.path.exists` call, to observe the function's effect on the state. -/
def find_weight_image_st (fs : FS) (image_dir stem : String) :
    (Option String × Option String) × FS :=
  match probe fs (suffixCandidates image_dir stem MAP_RMS_SUFFIXES) with
  | (some c, fs1) => ((some "MAP_RMS", some c), fs1)
  | (none, fs1) =>
    match probe fs1 (suffixCandidates image_dir stem MAP_WEIGHT_SUFFIXES) with
    | (some c, fs2) => ((some "MAP_WEIGHT", some c), fs2)
    | (none, fs2) =>
      match probe fs2 (replacementCandidates image_dir stem uncertainty_names) with
      | (some c, fs3) => ((some "MAP_RMS", some c), fs3)
      | (none, fs3) =>
        match probe fs3 (replacementCandidates image_dir stem weight_names) with
        | (some c, fs4) => ((some "MAP_WEIGHT", some c), fs4)
        | (none, fs4) => ((none, none), fs4)

/-- Observable outcome of `main` (lines 132–177): the process exit code, the
images attempted, and the printed summary `(successes, total)` (`none` when a
fatal precondition aborts the run before the summary). -/
structure MainResult where
  exitCode : Nat
  attempted : List String
  summary : Option (Nat × Nat)

/-- `main` (lines 132–177): aborts with exit code 1 when the binary is
missing, when `default.sex` or `default.param` is absent from the working
directory, or when no images are found; otherwise processes every image and
returns normally (exit code 0) with the summary counts. -/
def mainRun (env : Env) : MainResult :=
  if !env.sexAvailable then ⟨1, [], none⟩
  else if !(env.cwd.contains CONFIG_FILE) then ⟨1, [], none⟩
  else if !(env.cwd.contains PARAM_FILE) then ⟨1, [], none⟩
  else
    let images := find_images env.cwd
    if images.isEmpty then ⟨1, [], none⟩
    else
      let res := processImages env images
      ⟨0, res.2, some (res.1, images.length)⟩

/-! ## Helper lemmas -/

theorem firstExisting_eq_none {fs : FS} {l : List String} :
    firstExisting fs l = none ↔ ∀ c ∈ l, pathExists fs c = false := by
  simp [firstExisting, List.find?_eq_none]

theorem firstExisting_eq_some {fs : FS} {l : List String} {c : String}
    (h : firstExisting fs l = some c) : c ∈ l ∧ pathExists fs c = true :=
  ⟨List.mem_of_find?_eq_some h, List.find?_some h⟩

theorem firstExisting_isSome {fs : FS} {l : List String} {c : String}
    (hmem : c ∈ l) (hex : pathExists fs c = true) : (firstExisting fs l).isSome = true := by
  simpa [firstExisting, List.find?_isSome] using ⟨c, hmem, hex⟩

theorem firstExisting_eq_some_of_unique {fs : FS} {l : List String} {c : String}
    (hmem : c ∈ l) (hex : pathExists fs c = true)
    (huniq : ∀ b ∈ l, pathExists fs b = true → b = c) :
    firstExisting fs l = some c := by
  induction l with
  | nil => cases hmem
  | cons a t ih =>
    by_cases ha : pathExists fs a = true
    · have hac : a = c := huniq a (List.mem_cons_self a t) ha
      subst hac
      unfold firstExisting
      exact List.find?_cons_of_pos _ ha
    · have hct : c ∈ t := by
        rcases List.mem_cons.mp hmem with h | h
        · exact absurd hex (h ▸ ha)
        · exact h
      have hrec := ih hct fun b hb hpb => huniq b (List.mem_cons_of_mem _ hb) hpb
      unfold firstExisting at hrec ⊢
      rw [List.find?_cons_of_neg _ ha]
      exact hrec

theorem probe_eq (fs : FS) (l : List String) : probe fs l = (firstExisting fs l, fs) := by
  induction l with
  | nil => rfl
  | cons c rest ih =>
    by_cases hc : fs.contains c = true
    · simp only [probe, osPathExistsOp, hc]
      unfold firstExisting
      rw [List.find?_cons_of_pos _ (show pathExists fs c = true from hc)]
    · have hc2 : fs.contains c = false := by simpa using hc
      simp only [probe, osPathExistsOp, hc2]
      rw [ih]
      have hne : ¬pathExists fs c = true := by
        unfold pathExists
        rw [hc2]
        simp
      unfold firstExisting
      rw [List.find?_cons_of_neg _ hne]

theorem mem_insertSorted {x a : String} {l : List String} :
    a ∈ insertSorted x l ↔ a = x ∨ a ∈ l := by
  induction l with
  | nil => simp [insertSorted]
  | cons y ys ih =>
    unfold insertSorted
    by_cases h : charListLt y.data x.data = true
    · rw [if_pos h]
      simp only [List.mem_cons, ih]
      try tauto
    · rw [if_neg h]
      simp only [List.mem_cons]
      try tauto

theorem mem_sortStrings {a : String} {l : List String} : a ∈ sortStrings l ↔ a ∈ l := by
  induction l with
  | nil => simp [sortStrings]
  | cons x xs ih =>
    simp only [sortStrings, List.foldr_cons] at *
    rw [mem_insertSorted, ih, List.mem_cons]

theorem processImages_loop (env : Env) (images : List String) (n : Nat) (acc : List String) :
    images.foldl
        (fun acc2 img => ((if run_sextractor env img then acc2.1 + 1 else acc2.1), acc2.2 ++ [img]))
        (n, acc)
      = (n + (images.filter fun i => run_sextractor env i).length, acc ++ images) := by
  induction images generalizing n acc with
  | nil => simp
  | cons a t ih =>
    by_cases h : run_sextractor env a = true
    · simp [List.filter_cons, h, ih, Prod.mk.injEq, List.append_assoc]
      omega
    · simp [List.filter_cons, h, ih, Prod.mk.injEq, List.append_assoc]

theorem processImages_eq (env : Env) (images : List String) :
    processImages env images = ((images.filter fun i => run_sextractor env i).length, images) := by
  simpa [processImages] using processImages_loop env images 0 []

theorem mem_suffixCandidates {image_dir stem c : String} {suffixes : List String} :
    c ∈ suffixCandidates image_dir stem suffixes ↔
      ∃ suffix ∈ suffixes, ∃ fext ∈ file_exts,
        joinPath image_dir (stem ++ suffix ++ fext) = c := by
  simp [suffixCandidates, List.mem_flatMap, List.mem_map]

theorem mem_replacementCandidates {image_dir stem c : String} {names : List String} :
    c ∈ replacementCandidates image_dir stem names ↔
      ∃ component ∈ components_to_replace, strContains stem component = true ∧
        ∃ nm ∈ names, ∃ fext ∈ file_exts,
          joinPath image_dir (strReplace stem component ("-" ++ nm) ++ fext) = c := by
  unfold replacementCandidates
  simp only [List.mem_flatMap, List.mem_map]
  constructor
  · rintro ⟨component, hcomp, hmem⟩
    by_cases hc : strContains stem component = true
    · rw [if_pos hc] at hmem
      simp only [List.mem_flatMap, List.mem_map] at hmem
      obtain ⟨nm, hnm, fext, hext, heq⟩ := hmem
      exact ⟨component, hcomp, hc, nm, hnm, fext, hext, heq⟩
    · rw [if_neg hc] at hmem
      cases hmem
  · rintro ⟨component, hcomp, hc, nm, hnm, fext, hext, heq⟩
    refine ⟨component, hcomp, ?_⟩
    rw [if_pos hc]
    simp only [List.mem_flatMap, List.mem_map]
    exact ⟨nm, hnm, fext, hext, heq⟩

theorem length_filter_not_eq (p : String → Bool) (l : List String) :
    (l.filter p).length = l.length - (l.filter fun x => !(p x)).length := by
  induction l with
  | nil => rfl
  | cons a t ih =>
    by_cases h : p a = true
    · have hle : (t.filter fun x => !(p x)).length ≤ t.length :=
        List.length_filter_le _ t
      simp [List.filter_cons, h, ih]
      omega
    · simp [List.filter_cons, h, ih]

/-! ## Claims -/

/-- C1 (counterexample to the claim as stated): with both `img_stddev.fits`
and `img_stdev.fits` present, the RMS-suffix candidate `img_stdev.fits`
exists, yet the resolver does not return that path: it returns the earlier
candidate `img_stddev.fits`, so "returns `MAP_RMS` paired with exactly that
path" fails for the instance `suffix = "_stdev"`. -/
theorem C1_counterexample :
    "_stdev" ∈ MAP_RMS_SUFFIXES ∧ ".fits" ∈ file_exts ∧
      pathExists ["./img_stddev.fits", "./img_stdev.fits"]
        (joinPath "." ("img" ++ "_stdev" ++ ".fits")) = true ∧
      find_weight_image ["./img_stddev.fits", "./img_stdev.fits"] "." "img" ≠
        (some "MAP_RMS", some (joinPath "." ("img" ++ "_stdev" ++ ".fits"))) := by
  decide

/-- C1 (amended): if a file `D/S<suffix><ext>` exists for an RMS suffix token
and one of the four extension variants, and it is the only existing RMS-suffix
candidate for that stem, then `find_weight_image` returns `MAP_RMS` paired
with exactly that path — with no condition at all on weight-suffix or
replacement-pattern files, which may exist freely. -/
theorem C1_rms_precedence (fs : FS) (image_dir stem suffix fext : String)
    (hsuf : suffix ∈ MAP_RMS_SUFFIXES) (hext : fext ∈ file_exts)
    (hex : pathExists fs (joinPath image_dir (stem ++ suffix ++ fext)) = true)
    (huniq : ∀ c ∈ suffixCandidates image_dir stem MAP_RMS_SUFFIXES,
      pathExists fs c = true → c = joinPath image_dir (stem ++ suffix ++ fext)) :
    find_weight_image fs image_dir stem =
      (some "MAP_RMS", some (joinPath image_dir (stem ++ suffix ++ fext))) := by
  have hmem : joinPath image_dir (stem ++ suffix ++ fext)
      ∈ suffixCandidates image_dir stem MAP_RMS_SUFFIXES :=
    mem_suffixCandidates.mpr ⟨suffix, hsuf, fext, hext, rfl⟩
  have h1 := firstExisting_eq_some_of_unique hmem hex huniq
  unfold find_weight_image
  rw [h1]

/-- Witness for C1: stem `img` with `img_unc.fits` (the only RMS candidate)
and `img_weight.fits` both present; the resolver picks the RMS file. -/
theorem C1_rms_precedence_witness :
    find_weight_image ["./img_unc.fits", "./img_weight.fits"] "." "img" =
      (some "MAP_RMS", some (joinPath "." ("img" ++ "_unc" ++ ".fits"))) :=
  C1_rms_precedence ["./img_unc.fits", "./img_weight.fits"] "." "img" "_unc" ".fits"
    (by decide) (by decide) (by decide) (by decide)

/-- C2: the check order is fixed — whenever some RMS-suffix candidate exists
the result is `MAP_RMS` with a path from the RMS-suffix candidate list, and
whenever any suffix-pattern candidate (RMS- or weight-style) exists, the
returned path comes from the suffix-pattern candidate lists, never from the
substring-replacement rule. -/
theorem C2_check_order (fs : FS) (image_dir stem : String) :
    ((∃ c ∈ suffixCandidates image_dir stem MAP_RMS_SUFFIXES, pathExists fs c = true) →
        ∃ p ∈ suffixCandidates image_dir stem MAP_RMS_SUFFIXES,
          find_weight_image fs image_dir stem = (some "MAP_RMS", some p)) ∧
      ((∃ c ∈ suffixCandidates image_dir stem MAP_RMS_SUFFIXES
            ++ suffixCandidates image_dir stem MAP_WEIGHT_SUFFIXES, pathExists fs c = true) →
        ∃ p ∈ suffixCandidates image_dir stem MAP_RMS_SUFFIXES
            ++ suffixCandidates image_dir stem MAP_WEIGHT_SUFFIXES,
          (find_weight_image fs image_dir stem).2 = some p ∧ pathExists fs p = true) := by
  constructor
  · rintro ⟨c, hc, hpc⟩
    have hs := firstExisting_isSome hc hpc
    obtain ⟨p, hp⟩ := Option.isSome_iff_exists.mp hs
    refine ⟨p, (firstExisting_eq_some hp).1, ?_⟩
    unfold find_weight_image
    rw [hp]
  · rintro ⟨c, hc, hpc⟩
    cases h1 : firstExisting fs (suffixCandidates image_dir stem MAP_RMS_SUFFIXES) with
    | none =>
      have hcw : c ∈ suffixCandidates image_dir stem MAP_WEIGHT_SUFFIXES := by
        rcases List.mem_append.mp hc with h | h
        · have hfalse := firstExisting_eq_none.mp h1 c h
          rw [hfalse] at hpc
          simp at hpc
        · exact h
      have hs := firstExisting_isSome hcw hpc
      obtain ⟨p, hp⟩ := Option.isSome_iff_exists.mp hs
      obtain ⟨hpmem, hpex⟩ := firstExisting_eq_some hp
      refine ⟨p, List.mem_append_right _ hpmem, ?_, hpex⟩
      unfold find_weight_image
      rw [h1, hp]
    | some p =>
      obtain ⟨hpmem, hpex⟩ := firstExisting_eq_some h1
      refine ⟨p, List.mem_append_left _ hpmem, ?_, hpex⟩
      unfold find_weight_image
      rw [h1]

/-- Witness for C2: stem `img` with only `img_wht.fit` present; the returned
path is a suffix-pattern candidate that exists. -/
theorem C2_check_order_witness :
    ∃ p ∈ suffixCandidates "." "img" MAP_RMS_SUFFIXES
        ++ suffixCandidates "." "img" MAP_WEIGHT_SUFFIXES,
      (find_weight_image ["./img_wht.fit"] "." "img").2 = some p ∧
        pathExists ["./img_wht.fit"] p = true :=
  (C2_check_order ["./img_wht.fit"] "." "img").2 ⟨"./img_wht.fit", by decide, by decide⟩

/-- C5: when no suffix-pattern candidate and no substring-replacement
candidate exists on the filesystem, the resolver returns `(None, None)`. -/
theorem C5_no_companion (fs : FS) (image_dir stem : String)
    (h : ∀ c ∈ suffixCandidates image_dir stem MAP_RMS_SUFFIXES
        ++ suffixCandidates image_dir stem MAP_WEIGHT_SUFFIXES
        ++ replacementCandidates image_dir stem uncertainty_names
        ++ replacementCandidates image_dir stem weight_names,
      pathExists fs c = false) :
    find_weight_image fs image_dir stem = (none, none) := by
  have h1 : firstExisting fs (suffixCandidates image_dir stem MAP_RMS_SUFFIXES) = none :=
    firstExisting_eq_none.mpr fun c hc => h c (by simp [hc])
  have h2 : firstExisting fs (suffixCandidates image_dir stem MAP_WEIGHT_SUFFIXES) = none :=
    firstExisting_eq_none.mpr fun c hc => h c (by simp [hc])
  have h3 : firstExisting fs (replacementCandidates image_dir stem uncertainty_names) = none :=
    firstExisting_eq_none.mpr fun c hc => h c (by simp [hc])
  have h4 : firstExisting fs (replacementCandidates image_dir stem weight_names) = none :=
    firstExisting_eq_none.mpr fun c hc => h c (by simp [hc])
  unfold find_weight_image
  rw [h1, h2, h3, h4]

/-- Witness for C5: stem `galaxy` (contains neither `-int` nor `-sci`) in a
directory holding only an unrelated file: the resolver reports no
companion. -/
theorem C5_no_companion_witness :
    find_weight_image ["./other.fits"] "." "galaxy" = (none, none) :=
  C5_no_companion ["./other.fits"] "." "galaxy" (by decide)

/-- C6: for stem `galaxy-int` with `galaxy-unc.fits` present in the
directory, the resolver returns `MAP_RMS` with that file's path, and an
additional `galaxy_weight.fits` (stem `galaxy`, matching no rule for the
query stem) leaves the result unchanged. -/
theorem C6_galaxy_example :
    find_weight_image ["./galaxy-unc.fits"] "." "galaxy-int" =
        (some "MAP_RMS", some "./galaxy-unc.fits") ∧
      find_weight_image ["./galaxy-unc.fits", "./galaxy_weight.fits"] "." "galaxy-int" =
        (some "MAP_RMS", some "./galaxy-unc.fits") := by
  decide

/-- C7: the resolver returns either `(None, None)` or a role–path pair in
which the role is `"MAP_RMS"` or `"MAP_WEIGHT"` and the path passed the
existence check against the filesystem state. -/
theorem C7_result_shape (fs : FS) (image_dir stem : String) :
    find_weight_image fs image_dir stem = (none, none) ∨
      ∃ r p, find_weight_image fs image_dir stem = (some r, some p) ∧
        (r = "MAP_RMS" ∨ r = "MAP_WEIGHT") ∧ pathExists fs p = true := by
  unfold find_weight_image
  cases h1 : firstExisting fs (suffixCandidates image_dir stem MAP_RMS_SUFFIXES) with
  | some c1 => exact Or.inr ⟨"MAP_RMS", c1, rfl, Or.inl rfl, (firstExisting_eq_some h1).2⟩
  | none =>
    cases h2 : firstExisting fs (suffixCandidates image_dir stem MAP_WEIGHT_SUFFIXES) with
    | some c2 => exact Or.inr ⟨"MAP_WEIGHT", c2, rfl, Or.inr rfl, (firstExisting_eq_some h2).2⟩
    | none =>
      cases h3 : firstExisting fs (replacementCandidates image_dir stem uncertainty_names) with
      | some c3 => exact Or.inr ⟨"MAP_RMS", c3, rfl, Or.inl rfl, (firstExisting_eq_some h3).2⟩
      | none =>
        cases h4 : firstExisting fs (replacementCandidates image_dir stem weight_names) with
        | some c4 =>
          exact Or.inr ⟨"MAP_WEIGHT", c4, rfl, Or.inr rfl, (firstExisting_eq_some h4).2⟩
        | none => exact Or.inl rfl

/-- C9: with the filesystem state threaded through every `os.path.exists`
call, the resolver leaves the state exactly as it found it, and its answer is
the one computed against the initial state: existence queries only, no
mutation. -/
theorem C9_fs_unchanged (fs : FS) (image_dir stem : String) :
    (find_weight_image_st fs image_dir stem).2 = fs ∧
      (find_weight_image_st fs image_dir stem).1 = find_weight_image fs image_dir stem := by
  unfold find_weight_image_st find_weight_image
  rw [probe_eq]
  cases h1 : firstExisting fs (suffixCandidates image_dir stem MAP_RMS_SUFFIXES) with
  | some c1 => exact ⟨rfl, rfl⟩
  | none =>
    dsimp only
    rw [probe_eq]
    cases h2 : firstExisting fs (suffixCandidates image_dir stem MAP_WEIGHT_SUFFIXES) with
    | some c2 => exact ⟨rfl, rfl⟩
    | none =>
      dsimp only
      rw [probe_eq]
      cases h3 : firstExisting fs (replacementCandidates image_dir stem uncertainty_names) with
      | some c3 => exact ⟨rfl, rfl⟩
      | none =>
        dsimp only
        rw [probe_eq]
        cases h4 : firstExisting fs (replacementCandidates image_dir stem weight_names) with
        | some c4 => exact ⟨rfl, rfl⟩
        | none => exact ⟨rfl, rfl⟩

/-- C10: `str.replace` replaces every occurrence of the marker, so for stem
`a-int-b-int` the RMS replacement stem is `a-unc-b-unc`; a file named after
the first-occurrence-only form `a-unc-b-int` is never found. -/
theorem C10_replace_all_occurrences :
    strReplace "a-int-b-int" "-int" "-unc" = "a-unc-b-unc" ∧
      find_weight_image ["./a-unc-b-unc.fits"] "." "a-int-b-int" =
        (some "MAP_RMS", some "./a-unc-b-unc.fits") ∧
      find_weight_image ["./a-unc-b-int.fits"] "." "a-int-b-int" = (none, none) := by
  decide

/-- C3: the run exits non-zero exactly when a fatal precondition fails — the
binary is missing, `default.sex` or `default.param` is absent, or no images
are discovered — and in the zero-images case nothing is processed; otherwise
it exits 0 regardless of the per-image invocation outcomes. -/
theorem C3_exit_code (env : Env) :
    ((mainRun env).exitCode ≠ 0 ↔
        (env.sexAvailable = false ∨ env.cwd.contains CONFIG_FILE = false ∨
          env.cwd.contains PARAM_FILE = false ∨ find_images env.cwd = [])) ∧
      (find_images env.cwd = [] → (mainRun env).attempted = []) := by
  unfold mainRun
  cases hs : env.sexAvailable with
  | false => simp
  | true =>
    by_cases hc : env.cwd.contains CONFIG_FILE = true
    · have hcm : CONFIG_FILE ∈ env.cwd := by simpa using hc
      by_cases hp : env.cwd.contains PARAM_FILE = true
      · have hpm : PARAM_FILE ∈ env.cwd := by simpa using hp
        cases hi : (find_images env.cwd).isEmpty with
        | true =>
          have him : find_images env.cwd = [] := by simpa using hi
          simp [hc, hp, hcm, hpm, hi, him]
        | false =>
          have him : find_images env.cwd ≠ [] := by simpa using hi
          simp [hc, hp, hcm, hpm, hi, him]
      · have hpm : PARAM_FILE ∉ env.cwd := by simpa using hp
        simp [hc, hpm]
    · have hcm : CONFIG_FILE ∉ env.cwd := by simpa using hc
      simp [hcm]

/-- Witness for C3: binary present and both configuration files present but
no FITS entries in the working directory: no image is attempted. -/
theorem C3_exit_code_witness :
    (mainRun ⟨true, [CONFIG_FILE, PARAM_FILE], fun _ => true⟩).attempted = [] :=
  (C3_exit_code ⟨true, [CONFIG_FILE, PARAM_FILE], fun _ => true⟩).2 (by decide)

/-- C4: past the fatal preconditions, every discovered image is attempted, in
order, and the summary reports `N - M` successes out of `N`, where `M` counts
the images whose external invocation failed. -/
theorem C4_all_attempted_summary (env : Env)
    (hsex : env.sexAvailable = true)
    (hconf : env.cwd.contains CONFIG_FILE = true)
    (hparam : env.cwd.contains PARAM_FILE = true)
    (himg : find_images env.cwd ≠ []) :
    (mainRun env).attempted = find_images env.cwd ∧
      (mainRun env).summary = some
        ((find_images env.cwd).length -
          ((find_images env.cwd).filter fun i => !(run_sextractor env i)).length,
          (find_images env.cwd).length) := by
  have hie : (find_images env.cwd).isEmpty = false := by simpa using himg
  unfold mainRun
  rw [hsex, hconf, hparam]
  simp only [Bool.not_true, Bool.false_eq_true, if_false, hie]
  rw [processImages_eq]
  refine ⟨rfl, ?_⟩
  rw [length_filter_not_eq (fun i => run_sextractor env i) (find_images env.cwd)]

/-- Witness for C4: four directory entries of which two are images; the
invocation succeeds only on `./a.fits`, so the summary is 1 of 2 and both
images are attempted. -/
theorem C4_all_attempted_summary_witness :
    (mainRun ⟨true, [CONFIG_FILE, PARAM_FILE, "b.fits", "a.fits"],
        fun p => p == "./a.fits"⟩).attempted =
      find_images [CONFIG_FILE, PARAM_FILE, "b.fits", "a.fits"] ∧
    (mainRun ⟨true, [CONFIG_FILE, PARAM_FILE, "b.fits", "a.fits"],
        fun p => p == "./a.fits"⟩).summary = some
      ((find_images [CONFIG_FILE, PARAM_FILE, "b.fits", "a.fits"]).length -
        ((find_images [CONFIG_FILE, PARAM_FILE, "b.fits", "a.fits"]).filter
          fun i => !((fun p => p == "./a.fits") i)).length,
        (find_images [CONFIG_FILE, PARAM_FILE, "b.fits", "a.fits"]).length) :=
  C4_all_attempted_summary ⟨true, [CONFIG_FILE, PARAM_FILE, "b.fits", "a.fits"],
      fun p => p == "./a.fits"⟩
    (by decide) (by decide) (by decide) (by decide)

/-! ## Discovery lemmas (toward C8) -/

theorem find_weight_image_some_path {fs : FS} {image_dir stem r p : String}
    (h : find_weight_image fs image_dir stem = (some r, some p)) :
    (p ∈ suffixCandidates image_dir stem MAP_RMS_SUFFIXES ∨
      p ∈ suffixCandidates image_dir stem MAP_WEIGHT_SUFFIXES ∨
      p ∈ replacementCandidates image_dir stem uncertainty_names ∨
      p ∈ replacementCandidates image_dir stem weight_names) ∧ pathExists fs p = true := by
  unfold find_weight_image at h
  cases h1 : firstExisting fs (suffixCandidates image_dir stem MAP_RMS_SUFFIXES) with
  | some c =>
    rw [h1] at h
    simp only [Prod.mk.injEq, Option.some.injEq] at h
    exact h.2 ▸ ⟨Or.inl (firstExisting_eq_some h1).1, (firstExisting_eq_some h1).2⟩
  | none =>
    rw [h1] at h
    dsimp only at h
    cases h2 : firstExisting fs (suffixCandidates image_dir stem MAP_WEIGHT_SUFFIXES) with
    | some c =>
      rw [h2] at h
      simp only [Prod.mk.injEq, Option.some.injEq] at h
      exact h.2 ▸ ⟨Or.inr (Or.inl (firstExisting_eq_some h2).1), (firstExisting_eq_some h2).2⟩
    | none =>
      rw [h2] at h
      dsimp only at h
      cases h3 : firstExisting fs (replacementCandidates image_dir stem uncertainty_names) with
      | some c =>
        rw [h3] at h
        simp only [Prod.mk.injEq, Option.some.injEq] at h
        exact h.2 ▸
          ⟨Or.inr (Or.inr (Or.inl (firstExisting_eq_some h3).1)), (firstExisting_eq_some h3).2⟩
      | none =>
        rw [h3] at h
        dsimp only at h
        cases h4 : firstExisting fs (replacementCandidates image_dir stem weight_names) with
        | some c =>
          rw [h4] at h
          simp only [Prod.mk.injEq, Option.some.injEq] at h
          exact h.2 ▸
            ⟨Or.inr (Or.inr (Or.inr (firstExisting_eq_some h4).1)), (firstExisting_eq_some h4).2⟩
        | none =>
          rw [h4] at h
          simp at h

theorem joinPath_dot (x : String) :
    joinPath "." x = if strStartsWith x "/" = true then x else "./" ++ x := by
  unfold joinPath
  by_cases hx : strStartsWith x "/" = true
  · rw [if_pos hx, if_pos hx]
  · rw [if_neg hx, if_neg hx,
      if_neg (by decide : ¬((decide ("." = "") || strEndsWith "." "/") = true))]
    rfl

theorem startsWith_slash_dotslash (b : String) : strStartsWith ("./" ++ b) "/" = false := rfl

theorem joinPath_dot_inj {a b : String} (h : joinPath "." a = joinPath "." b) : a = b := by
  rw [joinPath_dot, joinPath_dot] at h
  by_cases ha : strStartsWith a "/" = true <;> by_cases hb : strStartsWith b "/" = true
  · rwa [if_pos ha, if_pos hb] at h
  · rw [if_pos ha, if_neg hb] at h
    rw [h, startsWith_slash_dotslash] at ha
    cases ha
  · rw [if_neg ha, if_pos hb] at h
    rw [← h, startsWith_slash_dotslash] at hb
    cases hb
  · rw [if_neg ha, if_neg hb] at h
    have hd := congrArg String.data h
    simp only [String.data_append] at hd
    exact String.ext (List.append_cancel_left hd)

theorem head_not_dot {stem : String} {c : Char} {l : List Char}
    (hstem : strStartsWith stem "." = false) (hsd : stem.data = c :: l) :
    ('.' == c) = false := by
  have h3 := hstem
  unfold strStartsWith at h3
  rw [hsd] at h3
  have h2 : (('.' == c) && List.isPrefixOf [] l) = false := h3
  simpa [List.isPrefixOf] using h2

theorem startsWith_dot_false_of_head {x : String} {c : Char} {l : List Char}
    (hx : x.data = c :: l) (hc : ('.' == c) = false) : strStartsWith x "." = false := by
  unfold strStartsWith
  rw [hx]
  show (('.' == c) && List.isPrefixOf [] l) = false
  rw [hc]
  rfl

theorem strEndsWith_append (t u : String) : strEndsWith (t ++ u) u = true := by
  unfold strEndsWith
  simp only [String.data_append, List.reverse_append, List.isPrefixOf_iff_prefix]
  exact List.prefix_append _ _

theorem suffix_heads_rms : ∀ s ∈ MAP_RMS_SUFFIXES, s.data.head? = some '_' := by decide

theorem suffix_heads_weight : ∀ s ∈ MAP_WEIGHT_SUFFIXES, s.data.head? = some '_' := by decide

theorem components_nonempty : ∀ comp ∈ components_to_replace, comp.data.isEmpty = false := by
  decide

theorem pattern_for_ext :
    ∀ fext ∈ file_exts, ∃ pattern ∈ IMAGE_EXTENSIONS, String.mk (pattern.data.drop 1) = fext := by
  decide

theorem strContains_cons {stem comp : String} (hcomp : comp ∈ components_to_replace)
    (h : strContains stem comp = true) : ∃ c l, stem.data = c :: l := by
  cases hd : stem.data with
  | cons c l => exact ⟨c, l, rfl⟩
  | nil =>
    exfalso
    unfold strContains at h
    rw [hd] at h
    have h2 : comp.data.isEmpty = true := h
    rw [components_nonempty comp hcomp] at h2
    cases h2

theorem strReplace_head (stem comp repl : String) (c : Char) (l : List Char)
    (hsd : stem.data = c :: l) :
    (∃ X, (strReplace stem comp repl).data = repl.data ++ X) ∨
      ∃ Y, (strReplace stem comp repl).data = c :: Y := by
  unfold strReplace
  dsimp only
  unfold replaceAll
  rw [hsd]
  simp only [List.length_cons]
  rw [replaceAllAux]
  by_cases hcond : comp.data ≠ [] ∧ comp.data.isPrefixOf (c :: l)
  · rw [if_pos hcond]
    exact Or.inl ⟨_, rfl⟩
  · rw [if_neg hcond]
    exact Or.inr ⟨_, rfl⟩

theorem suffix_candidate_shape {stem x : String} {suffixes : List String}
    (hstem : strStartsWith stem "." = false)
    (hheads : ∀ s ∈ suffixes, s.data.head? = some '_')
    (hx : x ∈ suffixCandidates "." stem suffixes) :
    ∃ t fext, fext ∈ file_exts ∧ x = joinPath "." (t ++ fext) ∧
      strStartsWith (t ++ fext) "." = false := by
  obtain ⟨suffix, hsuf, fext, hfe, heq⟩ := mem_suffixCandidates.mp hx
  refine ⟨stem ++ suffix, fext, hfe, by rw [← heq, String.append_assoc], ?_⟩
  cases hsd : stem.data with
  | nil =>
    cases hsufd : suffix.data with
    | nil =>
      have hh := hheads suffix hsuf
      rw [hsufd] at hh
      cases hh
    | cons a tl =>
      have hh := hheads suffix hsuf
      rw [hsufd] at hh
      have ha : a = '_' := by simpa using hh
      have hdata : ((stem ++ suffix) ++ fext).data = a :: (tl ++ fext.data) := by
        simp [String.data_append, hsd, hsufd]
      exact startsWith_dot_false_of_head hdata (by rw [ha]; decide)
  | cons c l =>
    have hc := head_not_dot hstem hsd
    have hdata : ((stem ++ suffix) ++ fext).data = c :: (l ++ (suffix.data ++ fext.data)) := by
      simp [String.data_append, hsd]
    exact startsWith_dot_false_of_head hdata hc

theorem replacement_candidate_shape {stem x : String} {names : List String}
    (hstem : strStartsWith stem "." = false)
    (hx : x ∈ replacementCandidates "." stem names) :
    ∃ t fext, fext ∈ file_exts ∧ x = joinPath "." (t ++ fext) ∧
      strStartsWith (t ++ fext) "." = false := by
  obtain ⟨comp, hcomp, hcont, nm, hnm, fext, hfe, heq⟩ := mem_replacementCandidates.mp hx
  refine ⟨strReplace stem comp ("-" ++ nm), fext, hfe, heq.symm, ?_⟩
  obtain ⟨c, l, hsd⟩ := strContains_cons hcomp hcont
  rcases strReplace_head stem comp ("-" ++ nm) c l hsd with ⟨X, hX⟩ | ⟨Y, hY⟩
  · have hdata : (strReplace stem comp ("-" ++ nm) ++ fext).data
        = '-' :: ((nm.data ++ X) ++ fext.data) := by
      rw [String.data_append, hX]
      simp [String.data_append]
    exact startsWith_dot_false_of_head hdata (by decide)
  · have hc := head_not_dot hstem hsd
    have hdata : (strReplace stem comp ("-" ++ nm) ++ fext).data = c :: (Y ++ fext.data) := by
      rw [String.data_append, hY]
      rfl
    exact startsWith_dot_false_of_head hdata hc

theorem candidate_not_hidden {stem x : String}
    (hstem : strStartsWith stem "." = false)
    (hx : x ∈ suffixCandidates "." stem MAP_RMS_SUFFIXES ∨
        x ∈ suffixCandidates "." stem MAP_WEIGHT_SUFFIXES ∨
        x ∈ replacementCandidates "." stem uncertainty_names ∨
        x ∈ replacementCandidates "." stem weight_names) :
    ∃ t fext, fext ∈ file_exts ∧ x = joinPath "." (t ++ fext) ∧
      strStartsWith (t ++ fext) "." = false := by
  rcases hx with h | h | h | h
  · exact suffix_candidate_shape hstem suffix_heads_rms h
  · exact suffix_candidate_shape hstem suffix_heads_weight h
  · exact replacement_candidate_shape hstem h
  · exact replacement_candidate_shape hstem h

theorem find_images_complete {cwd : List String} {name pattern : String}
    (hname : name ∈ cwd) (hpat : pattern ∈ IMAGE_EXTENSIONS)
    (hmatch : globMatch pattern name = true) :
    joinPath "." name ∈ find_images cwd := by
  unfold find_images
  rw [mem_sortStrings, List.mem_flatMap]
  exact ⟨pattern, hpat, List.mem_map.mpr ⟨name, List.mem_filter.mpr ⟨hname, hmatch⟩, rfl⟩⟩

/-- C8: image discovery applies no filter beyond the four glob patterns —
every matching working-directory entry becomes `./name` in the discovered
list — and consequently any companion the resolver returns for a
(non-hidden-stem) primary image is itself a discovered image: its name is a
directory entry ending in one of the four extensions, so it appears in
`find_images` and is processed as a primary image by `main`. -/
theorem C8_companions_also_discovered (cwd : List String) :
    (∀ name ∈ cwd, (∃ pattern ∈ IMAGE_EXTENSIONS, globMatch pattern name = true) →
        joinPath "." name ∈ find_images cwd) ∧
      ∀ stem r p, strStartsWith stem "." = false →
        find_weight_image (cwd.map fun n => joinPath "." n) "." stem = (some r, some p) →
        ∃ name ∈ cwd, p = joinPath "." name ∧ p ∈ find_images cwd := by
  constructor
  · rintro name hname ⟨pattern, hpat, hmatch⟩
    exact find_images_complete hname hpat hmatch
  · intro stem r p hstem h
    obtain ⟨hcand, hex⟩ := find_weight_image_some_path h
    obtain ⟨t, fext, hfe, hpe, hnh⟩ := candidate_not_hidden hstem hcand
    have hmemfs : p ∈ cwd.map fun n => joinPath "." n := by
      simpa [pathExists] using hex
    obtain ⟨name, hname, hjoin⟩ := List.mem_map.mp hmemfs
    have hnt : name = t ++ fext := joinPath_dot_inj (hjoin.trans hpe)
    obtain ⟨pattern, hpat, hpatext⟩ := pattern_for_ext fext hfe
    have hmatch : globMatch pattern name = true := by
      unfold globMatch
      rw [hpatext, hnt, strEndsWith_append, hnh]
      rfl
    exact ⟨name, hname, hjoin.symm,
      by rw [← hjoin]; exact find_images_complete hname hpat hmatch⟩

/-- Witness for C8: directory `[img.fits, img_unc.fits]`; the resolver
identifies `./img_unc.fits` as the companion of stem `img`, and that file is
itself among the discovered images. -/
theorem C8_companions_also_discovered_witness :
    ∃ name ∈ ["img.fits", "img_unc.fits"], "./img_unc.fits" = joinPath "." name ∧
      "./img_unc.fits" ∈ find_images ["img.fits", "img_unc.fits"] :=
  (C8_companions_also_discovered ["img.fits", "img_unc.fits"]).2 "img" "MAP_RMS" "./img_unc.fits"
    (by decide) (by decide)

end RunSextractor
